import Mathlib

/-!
Verification of the Handel aggregation `Level` component
(`src/handel/src/level.rs`) of the core-rs-albatross repository.

The Rust code is shallowly embedded: the `RwLock<LevelState>` interior
mutability is modelled by explicit state passing (operations return the
updated `Level`), `usize` becomes `Nat`, Rust `Vec<usize>` becomes
`List Nat`, fallible indexing and `expect`/`panic!` paths are made
explicit through `Option`/`Except` results.  The generic
`P: Partitioner` argument of `Level::create_levels` is embedded as a
record of the two capabilities the code uses (`levels`, `range`).
-/

deriving instance DecidableEq for Except

namespace Handel

/-- State of a level: the `LevelState` struct of `level.rs`. -/
structure LevelState where
  started : Bool
  complete : Bool
  next_peer_index : Nat
deriving Repr, DecidableEq

/-- An aggregation level: the `Level` struct of `level.rs` (the
`RwLock` around the state is dropped; state is passed explicitly). -/
structure Level where
  id : Nat
  peer_ids : List Nat
  state : LevelState
deriving Repr, DecidableEq

/-- `Level::new`: a fresh level with `started = false`, `complete = false`
and `next_peer_index = 0`. -/
def Level.new (id : Nat) (peer_ids : List Nat) : Level :=
  { id := id, peer_ids := peer_ids,
    state := { started := false, complete := false, next_peer_index := 0 } }

/-- `Level::num_peers`. -/
def Level.num_peers (l : Level) : Nat := l.peer_ids.length

/-- `Level::is_empty`. -/
def Level.is_empty (l : Level) : Bool := l.peer_ids.length == 0

/-- `Level::is_started`. -/
def Level.is_started (l : Level) : Bool := l.state.started

/-- `Level::is_complete`. -/
def Level.is_complete (l : Level) : Bool := l.state.complete

/-- `Level::start`: records that the level is started and returns
whether this call performed the transition. -/
def Level.start (l : Level) : Bool × Level :=
  let already_started := l.state.started
  (!already_started, { l with state := { l.state with started := true } })

/-- The selection loop inside `Level::select_next_peers`: pick `n`
peers starting at index `idx`, advancing the cursor modulo the length.
The Rust indexing `self.peer_ids[state.next_peer_index]` panics when out
of bounds; this is modelled by `none`. -/
def selectLoop (peers : List Nat) : Nat → Nat → Option (List Nat × Nat)
  | idx, 0 => some ([], idx)
  | idx, Nat.succ n =>
    match peers[idx]? with
    | none => none
    | some x =>
      match selectLoop peers ((idx + 1) % peers.length) n with
      | none => none
      | some (rest, fin) => some (x :: rest, fin)

/-- `Level::select_next_peers`: for level 0 or an empty level return the
empty list and leave the state untouched, otherwise take
`min count |peer_ids|` peers round-robin from the cursor.  `none`
models the out-of-bounds indexing panic. -/
def Level.select_next_peers (l : Level) (count : Nat) : Option (List Nat × Level) :=
  if l.id == 0 || l.is_empty then
    some ([], l)
  else
    match selectLoop l.peer_ids l.state.next_peer_index (min count l.peer_ids.length) with
    | none => none
    | some (selected, fin) =>
      some (selected, { l with state := { l.state with next_peer_index := fin } })

/-- The `PartitioningError` enum used by `create_levels`: `EmptyLevel`
is recovered from, any other variant makes `create_levels` panic. -/
inductive PartitioningError where
  | emptyLevel (level : Nat)
  | invalidLevel (level : Nat)
deriving Repr, DecidableEq

/-- The partitioner capability used by `Level::create_levels`: a number
of levels and a per-level inclusive range of committee indices
(`RangeInclusive<usize>` is embedded as a `Nat × Nat` pair). -/
structure Partitioner where
  levels : Nat
  range : Nat → Except PartitioningError (Nat × Nat)

/-- Collecting an inclusive range `s..=e` into a vector
(`tree_rhs.clone().collect::<Vec<usize>>()`): empty when `e < s`. -/
def rangeIds (s e : Nat) : List Nat := List.range' s (e + 1 - s)

/-- `Iterator::position` on the half-open range `a..b` looking for `x`. -/
def rangePosition (a b x : Nat) : Option Nat :=
  if a ≤ x ∧ x < b then some (x - a) else none

/-- The ways one iteration of the `create_levels` loop can panic, plus
propagation of an unexpected partitioning error (`Err(e) => panic!`). -/
inductive CreateError where
  | rangesNotConsecutive
  | nodeNotOnOwnSide
  | modByZero
  | partitioning (e : PartitioningError)
deriving Repr, DecidableEq

/-- One iteration of the loop body of `Level::create_levels` for level
`i`, given the accumulated own-side half-open range `tree_lhs`.
Returns the constructed level together with the updated `tree_lhs`. -/
def createStep (p : Partitioner) (node_id i : Nat) (tree_lhs : Nat × Nat) :
    Except CreateError (Level × (Nat × Nat)) :=
  match p.range i with
  | Except.ok (s, e) =>
    let ids := rangeIds s e
    let level := Level.new i ids
    if i = 0 then
      Except.ok ({ level with state := { level.state with started := true } },
        (node_id, node_id + 1))
    else
      match rangePosition tree_lhs.1 tree_lhs.2 node_id with
      | none => Except.error CreateError.nodeNotOnOwnSide
      | some index =>
        if ids.length = 0 then
          Except.error CreateError.modByZero
        else
          let level :=
            { level with state := { level.state with next_peer_index := index % ids.length } }
          if e + 1 = tree_lhs.1 then
            Except.ok (level, (s, tree_lhs.2))
          else if s = tree_lhs.2 then
            Except.ok (level, (tree_lhs.1, e + 1))
          else
            Except.error CreateError.rangesNotConsecutive
  | Except.error (PartitioningError.emptyLevel _lv) =>
    Except.ok (Level.new i [], tree_lhs)
  | Except.error (PartitioningError.invalidLevel lv) =>
    Except.error (CreateError.partitioning (PartitioningError.invalidLevel lv))

/-- The loop of `Level::create_levels` over the remaining level ids. -/
def createLevelsGo (p : Partitioner) (node_id : Nat) :
    List Nat → Nat × Nat → Except CreateError (List Level)
  | [], _ => Except.ok []
  | i :: rest, tree_lhs =>
    match createStep p node_id i tree_lhs with
    | Except.error e => Except.error e
    | Except.ok (level, tree_lhs') =>
      match createLevelsGo p node_id rest tree_lhs' with
      | Except.error e => Except.error e
      | Except.ok lvls => Except.ok (level :: lvls)

/-- `Level::create_levels`: run the loop over levels `0 .. levels()`
starting from the empty own-side range `0..0`. -/
def create_levels (p : Partitioner) (node_id : Nat) : Except CreateError (List Level) :=
  createLevelsGo p node_id (List.range p.levels) (0, 0)

/-- How one loop iteration of `create_levels` transforms the own-side
range `tree_lhs` (the value is irrelevant on the panicking branch). -/
def tlStep (node_id i : Nat) (r : Except PartitioningError (Nat × Nat)) (tl : Nat × Nat) :
    Nat × Nat :=
  match r with
  | Except.ok (s, e) =>
    if i = 0 then (node_id, node_id + 1)
    else if e + 1 = tl.1 then (s, tl.2)
    else if s = tl.2 then (tl.1, e + 1)
    else tl
  | Except.error _ => tl

/-- The own-side range after the loop iteration for level `i`. -/
def tlAfter (p : Partitioner) (node_id : Nat) : Nat → Nat × Nat
  | 0 => tlStep node_id 0 (p.range 0) (0, 0)
  | i + 1 => tlStep node_id (i + 1) (p.range (i + 1)) (tlAfter p node_id i)

/-- The own-side range seen by the loop iteration for level `i`
(accumulated over levels `0 .. i-1`). -/
def tlBefore (p : Partitioner) (node_id : Nat) : Nat → Nat × Nat
  | 0 => (0, 0)
  | i + 1 => tlAfter p node_id i

/-- The peer ids that `create_levels` collects for level `i`: the
elements of the reported inclusive range, empty on a range error. -/
def idsAt (p : Partitioner) (i : Nat) : List Nat :=
  match p.range i with
  | Except.ok (s, e) => rangeIds s e
  | Except.error _ => []

/-- Whether a reported range is `Ok`. -/
def isOkRange (r : Except PartitioningError (Nat × Nat)) : Bool :=
  match r with
  | Except.ok _ => true
  | Except.error _ => false

/-- Well-formedness of the range reported for level `i` relative to the
own-side range accumulated so far: an `Ok` range at `i ≥ 1` must be
non-empty, must be reported while `node_id` lies on the own side, and
must be immediately adjacent (on either side) to the own-side range;
`EmptyLevel` is always acceptable; any other error is not. -/
def consecAtB (p : Partitioner) (node_id i : Nat) : Bool :=
  match p.range i with
  | Except.ok (s, e) =>
    if i = 0 then true
    else
      decide (s ≤ e) && decide ((tlBefore p node_id i).1 ≤ node_id) &&
        decide (node_id < (tlBefore p node_id i).2) &&
        (decide (e + 1 = (tlBefore p node_id i).1) || decide (s = (tlBefore p node_id i).2))
  | Except.error (PartitioningError.emptyLevel _) => true
  | Except.error (PartitioningError.invalidLevel _) => false

/-- A partitioner reports consecutive ranges (relative to `node_id`)
when every level below `levels()` passes the adjacency check. -/
def ConsecutiveRanges (p : Partitioner) (node_id : Nat) : Prop :=
  ∀ i, i < p.levels → consecAtB p node_id i = true

instance (p : Partitioner) (node_id : Nat) : Decidable (ConsecutiveRanges p node_id) :=
  decidable_of_iff ((List.range p.levels).all (fun i => consecAtB p node_id i) = true)
    (by simp [ConsecutiveRanges, List.all_eq_true, List.mem_range])

/-- Fuel-driven ceiling of `log2` (structural recursion so that it
evaluates by `decide`/`rfl`): `ceilLog2Fuel f n` is `⌈log2 n⌉` for
`n ≤ f`. -/
def ceilLog2Fuel : Nat → Nat → Nat
  | 0, _ => 0
  | fuel + 1, n => if n ≤ 1 then 0 else ceilLog2Fuel fuel ((n + 1) / 2) + 1

/-- Modelled from the spec: the number of levels of the binary "flip"
partitioner, `L = ⌈log2 N⌉ + 1` (§3, §4.1 of the spec; the partitioner
implementation is not part of the provided sources). -/
def binomialLevels (n : Nat) : Nat := ceilLog2Fuel n n + 1

/-- Modelled from the spec: the per-level range of the binary "flip"
partitioner (§4.1; the partitioner implementation is not part of the
provided sources).  Level 0 is `{node_id}`.  For `i ≥ 1` the opposite
subtree is the sibling-aligned block of size `2^(i-1)` containing
`node_id`, clipped by the committee size `n`; a fully clipped block is
reported as `EmptyLevel`. -/
def binomialRange (n node_id i : Nat) : Except PartitioningError (Nat × Nat) :=
  if i = 0 then Except.ok (node_id, node_id)
  else
    let size := 2 ^ (i - 1)
    let q := node_id / size
    let sibling := if q % 2 = 0 then q + 1 else q - 1
    let start := sibling * size
    if n ≤ start then Except.error (PartitioningError.emptyLevel i)
    else Except.ok (start, min (start + size) n - 1)

/-- Modelled from the spec: the binary "flip" partitioner for committee
size `n` and local node `node_id`. -/
def binomialPartitioner (n node_id : Nat) : Partitioner :=
  { levels := binomialLevels n, range := binomialRange n node_id }

/-- The operations exposed by `Level` (the read-only accessors are kept
so that operation sequences range over the whole interface). -/
inductive LevelOp where
  | startOp
  | selectOp (count : Nat)
  | isStartedOp
  | isCompleteOp
  | numPeersOp
  | isEmptyOp
deriving Repr, DecidableEq

/-- The state effect of one `Level` operation (read-only accessors
leave the level unchanged; a panicking selection leaves the recorded
state unchanged as well). -/
def applyOp (l : Level) (op : LevelOp) : Level :=
  match op with
  | LevelOp.startOp => (Level.start l).2
  | LevelOp.selectOp c =>
    match Level.select_next_peers l c with
    | some (_, l') => l'
    | none => l
  | LevelOp.isStartedOp => l
  | LevelOp.isCompleteOp => l
  | LevelOp.numPeersOp => l
  | LevelOp.isEmptyOp => l

/-- Run a sequence of `Level` operations. -/
def runOps (l : Level) (ops : List LevelOp) : Level := ops.foldl applyOp l

/-- The cursor invariant: on a non-empty level the round-robin cursor
is inside `peer_ids`. -/
def levelInv (l : Level) : Prop :=
  l.peer_ids ≠ [] → l.state.next_peer_index < l.peer_ids.length

instance (l : Level) : Decidable (levelInv l) := by
  unfold levelInv
  infer_instance

/-- Round-robin selection as the spec words it: the next `n` peers read
from `peers` starting at index `start`, wrapping modulo the length. -/
def roundRobinSpec (peers : List Nat) (start n : Nat) : List Nat :=
  (List.range n).map fun k => peers.getD ((start + k) % peers.length) 0

/-! General lemmas about the embedded operations. -/

theorem selectLoop_spec (peers : List Nat) :
    ∀ (n idx : Nat), idx < peers.length →
      selectLoop peers idx n =
        some ((List.range n).map fun k => peers.getD ((idx + k) % peers.length) 0,
          (idx + n) % peers.length) := by
  intro n
  induction n with
  | zero =>
    intro idx h
    simp [selectLoop, Nat.mod_eq_of_lt h]
  | succ n ih =>
    intro idx h
    have hL : 0 < peers.length := Nat.lt_of_le_of_lt (Nat.zero_le _) h
    have hidx : peers[idx]? = some (peers.getD idx 0) := by
      rw [List.getElem?_eq_getElem h, List.getD_eq_getElem _ _ h]
    rw [selectLoop, hidx, ih ((idx + 1) % peers.length) (Nat.mod_lt _ hL)]
    have hfin : ((idx + 1) % peers.length + n) % peers.length =
        (idx + (n + 1)) % peers.length := by
      rw [Nat.mod_add_mod]
      congr 1
      omega
    have hmap : ∀ k : Nat, ((idx + 1) % peers.length + k) % peers.length =
        (idx + (k + 1)) % peers.length := by
      intro k
      rw [Nat.mod_add_mod]
      congr 1
      omega
    rw [List.range_succ_eq_map, List.map_cons, List.map_map]
    simp only [Function.comp_def, hmap, hfin, Nat.mod_eq_of_lt h, Nat.add_zero,
      Nat.succ_eq_add_one]

theorem select_next_peers_preserves (l : Level) (c : Nat) (sel : List Nat) (l' : Level)
    (h : Level.select_next_peers l c = some (sel, l')) :
    l'.id = l.id ∧ l'.peer_ids = l.peer_ids ∧ l'.state.started = l.state.started ∧
      l'.state.complete = l.state.complete := by
  unfold Level.select_next_peers at h
  by_cases hc : (l.id == 0 || l.is_empty) = true
  · rw [if_pos hc] at h
    simp only [Option.some.injEq, Prod.mk.injEq] at h
    rw [← h.2]
    exact ⟨rfl, rfl, rfl, rfl⟩
  · rw [if_neg hc] at h
    cases hsl : selectLoop l.peer_ids l.state.next_peer_index (min c l.peer_ids.length) with
    | none => rw [hsl] at h; simp at h
    | some pr =>
      obtain ⟨sel', fin⟩ := pr
      rw [hsl] at h
      simp only [Option.some.injEq, Prod.mk.injEq] at h
      rw [← h.2]
      exact ⟨rfl, rfl, rfl, rfl⟩

theorem select_next_peers_inv (l : Level) (c : Nat) (sel : List Nat) (l' : Level)
    (hinv : levelInv l) (h : Level.select_next_peers l c = some (sel, l')) :
    levelInv l' := by
  unfold Level.select_next_peers at h
  by_cases hc : (l.id == 0 || l.is_empty) = true
  · rw [if_pos hc] at h
    simp only [Option.some.injEq, Prod.mk.injEq] at h
    rw [← h.2]
    exact hinv
  · rw [if_neg hc] at h
    have hne : l.peer_ids ≠ [] := by
      intro hnil
      apply hc
      simp [Level.is_empty, hnil]
    have hlt : l.state.next_peer_index < l.peer_ids.length := hinv hne
    have hL : 0 < l.peer_ids.length := List.length_pos.mpr hne
    rw [selectLoop_spec _ _ _ hlt] at h
    simp only [Option.some.injEq, Prod.mk.injEq] at h
    rw [← h.2]
    intro _
    exact Nat.mod_lt _ hL

theorem select_next_peers_total (l : Level) (c : Nat) (hinv : levelInv l) :
    (Level.select_next_peers l c).isSome = true := by
  unfold Level.select_next_peers
  by_cases hc : (l.id == 0 || l.is_empty) = true
  · rw [if_pos hc]
    rfl
  · rw [if_neg hc]
    have hne : l.peer_ids ≠ [] := by
      intro hnil
      apply hc
      simp [Level.is_empty, hnil]
    rw [selectLoop_spec _ _ _ (hinv hne)]
    rfl

/-- The level built by a successful non-zero loop iteration. -/
def stepLevel (i s e idx : Nat) : Level :=
  { id := i, peer_ids := rangeIds s e,
    state :=
      { started := false, complete := false,
        next_peer_index := idx % (rangeIds s e).length } }

theorem createStep_zero_ok (p : Partitioner) (node : Nat) (tl : Nat × Nat) (s e : Nat)
    (hr : p.range 0 = Except.ok (s, e)) :
    createStep p node 0 tl = Except.ok
      ({ id := 0, peer_ids := rangeIds s e,
         state := { started := true, complete := false, next_peer_index := 0 } },
       (node, node + 1)) := by
  unfold createStep
  rw [hr]
  rfl

theorem createStep_empty (p : Partitioner) (node i : Nat) (tl : Nat × Nat) (j : Nat)
    (hr : p.range i = Except.error (PartitioningError.emptyLevel j)) :
    createStep p node i tl = Except.ok (Level.new i [], tl) := by
  unfold createStep
  rw [hr]

theorem createStep_invalid (p : Partitioner) (node i : Nat) (tl : Nat × Nat) (j : Nat)
    (hr : p.range i = Except.error (PartitioningError.invalidLevel j)) :
    createStep p node i tl =
      Except.error (CreateError.partitioning (PartitioningError.invalidLevel j)) := by
  unfold createStep
  rw [hr]

theorem createStep_pos_none (p : Partitioner) (node i : Nat) (tl : Nat × Nat) (s e : Nat)
    (hi : i ≠ 0) (hr : p.range i = Except.ok (s, e))
    (hp : rangePosition tl.1 tl.2 node = none) :
    createStep p node i tl = Except.error CreateError.nodeNotOnOwnSide := by
  unfold createStep
  rw [hr]
  dsimp only
  rw [if_neg hi, hp]

theorem createStep_pos_len0 (p : Partitioner) (node i : Nat) (tl : Nat × Nat) (s e idx : Nat)
    (hi : i ≠ 0) (hr : p.range i = Except.ok (s, e))
    (hp : rangePosition tl.1 tl.2 node = some idx)
    (hlen : (rangeIds s e).length = 0) :
    createStep p node i tl = Except.error CreateError.modByZero := by
  unfold createStep
  rw [hr]
  dsimp only
  rw [if_neg hi, hp]
  dsimp only
  rw [if_pos hlen]

theorem createStep_pos_ok (p : Partitioner) (node i : Nat) (tl : Nat × Nat) (s e idx : Nat)
    (hi : i ≠ 0) (hr : p.range i = Except.ok (s, e))
    (hp : rangePosition tl.1 tl.2 node = some idx)
    (hlen : (rangeIds s e).length ≠ 0) :
    createStep p node i tl =
      if e + 1 = tl.1 then Except.ok (stepLevel i s e idx, (s, tl.2))
      else if s = tl.2 then Except.ok (stepLevel i s e idx, (tl.1, e + 1))
      else Except.error CreateError.rangesNotConsecutive := by
  unfold createStep
  rw [hr]
  dsimp only
  rw [if_neg hi, hp]
  dsimp only
  rw [if_neg hlen]
  rfl

theorem tlAfter_eq (p : Partitioner) (node i : Nat) :
    tlAfter p node i = tlStep node i (p.range i) (tlBefore p node i) := by
  cases i <;> rfl

theorem createStep_tl (p : Partitioner) (node i : Nat) (tl : Nat × Nat) (l : Level)
    (tl' : Nat × Nat) (h : createStep p node i tl = Except.ok (l, tl')) :
    tl' = tlStep node i (p.range i) tl := by
  cases hr : p.range i with
  | ok pr =>
    obtain ⟨s, e⟩ := pr
    by_cases hi : i = 0
    · subst hi
      rw [createStep_zero_ok p node tl s e hr] at h
      simp only [Except.ok.injEq, Prod.mk.injEq] at h
      rw [← h.2]
      simp [tlStep]
    · cases hp : rangePosition tl.1 tl.2 node with
      | none =>
        rw [createStep_pos_none p node i tl s e hi hr hp] at h
        simp at h
      | some idx =>
        by_cases hlen : (rangeIds s e).length = 0
        · rw [createStep_pos_len0 p node i tl s e idx hi hr hp hlen] at h
          simp at h
        · rw [createStep_pos_ok p node i tl s e idx hi hr hp hlen] at h
          simp only [tlStep, hr, if_neg hi]
          by_cases h1 : e + 1 = tl.1
          · rw [if_pos h1] at h
            rw [if_pos h1]
            simp only [Except.ok.injEq, Prod.mk.injEq] at h
            exact h.2.symm
          · rw [if_neg h1] at h
            rw [if_neg h1]
            by_cases h2 : s = tl.2
            · rw [if_pos h2] at h
              rw [if_pos h2]
              simp only [Except.ok.injEq, Prod.mk.injEq] at h
              exact h.2.symm
            · rw [if_neg h2] at h
              simp at h
  | error er =>
    cases er with
    | emptyLevel j =>
      rw [createStep_empty p node i tl j hr] at h
      simp only [Except.ok.injEq, Prod.mk.injEq] at h
      rw [← h.2]
      simp [tlStep]
    | invalidLevel j =>
      rw [createStep_invalid p node i tl j hr] at h
      simp at h

theorem stepLevel_facts (p : Partitioner) (node i : Nat) (tl : Nat × Nat) (s e idx : Nat)
    (hi : i ≠ 0) (hr : p.range i = Except.ok (s, e))
    (hp : rangePosition tl.1 tl.2 node = some idx)
    (hlen : (rangeIds s e).length ≠ 0) :
    (stepLevel i s e idx).id = i ∧
    (stepLevel i s e idx).peer_ids = idsAt p i ∧
    (stepLevel i s e idx).state.complete = false ∧
    ((stepLevel i s e idx).state.started = true ↔ (i = 0 ∧ isOkRange (p.range i) = true)) ∧
    levelInv (stepLevel i s e idx) ∧
    (i ≠ 0 → (stepLevel i s e idx).peer_ids ≠ [] →
      ∃ k, rangePosition tl.1 tl.2 node = some k ∧
        (stepLevel i s e idx).state.next_peer_index = k % (stepLevel i s e idx).peer_ids.length) ∧
    ((stepLevel i s e idx).peer_ids = [] → (stepLevel i s e idx).state.next_peer_index = 0) ∧
    (i = 0 → (stepLevel i s e idx).state.next_peer_index = 0) := by
  refine ⟨rfl, by simp [stepLevel, idsAt, hr], rfl, by simp [stepLevel, hi], ?_, ?_, ?_, ?_⟩
  · intro _
    exact Nat.mod_lt _ (Nat.pos_of_ne_zero hlen)
  · intro _ _
    exact ⟨idx, hp, rfl⟩
  · intro hnil
    have h2 : rangeIds s e = [] := hnil
    have h3 : (rangeIds s e).length = 0 := by rw [h2]; rfl
    exact absurd h3 hlen
  · intro h0
    exact absurd h0 hi

theorem createStep_ok_cases (p : Partitioner) (node i : Nat) (tl : Nat × Nat) (l : Level)
    (tl' : Nat × Nat) (h : createStep p node i tl = Except.ok (l, tl')) :
    l.id = i ∧
    l.peer_ids = idsAt p i ∧
    l.state.complete = false ∧
    (l.state.started = true ↔ (i = 0 ∧ isOkRange (p.range i) = true)) ∧
    levelInv l ∧
    (i ≠ 0 → l.peer_ids ≠ [] →
      ∃ k, rangePosition tl.1 tl.2 node = some k ∧
        l.state.next_peer_index = k % l.peer_ids.length) ∧
    (l.peer_ids = [] → l.state.next_peer_index = 0) ∧
    (i = 0 → l.state.next_peer_index = 0) := by
  cases hr : p.range i with
  | ok pr =>
    obtain ⟨s, e⟩ := pr
    by_cases hi : i = 0
    · subst hi
      rw [createStep_zero_ok p node tl s e hr] at h
      simp only [Except.ok.injEq, Prod.mk.injEq] at h
      rw [← h.1]
      refine ⟨rfl, by simp [idsAt, hr], rfl, by simp [isOkRange, hr], ?_, ?_, fun _ => rfl,
        fun _ => rfl⟩
      · intro hne
        exact List.length_pos.mpr hne
      · intro h0
        exact absurd rfl h0
    · cases hp : rangePosition tl.1 tl.2 node with
      | none =>
        rw [createStep_pos_none p node i tl s e hi hr hp] at h
        simp at h
      | some idx =>
        by_cases hlen : (rangeIds s e).length = 0
        · rw [createStep_pos_len0 p node i tl s e idx hi hr hp hlen] at h
          simp at h
        · rw [createStep_pos_ok p node i tl s e idx hi hr hp hlen] at h
          have hl : l = stepLevel i s e idx := by
            by_cases h1 : e + 1 = tl.1
            · rw [if_pos h1] at h
              simp only [Except.ok.injEq, Prod.mk.injEq] at h
              exact h.1.symm
            · rw [if_neg h1] at h
              by_cases h2 : s = tl.2
              · rw [if_pos h2] at h
                simp only [Except.ok.injEq, Prod.mk.injEq] at h
                exact h.1.symm
              · rw [if_neg h2] at h
                simp at h
          rw [hl, ← hr, ← hp]
          exact stepLevel_facts p node i tl s e idx hi hr hp hlen
  | error er =>
    cases er with
    | emptyLevel j =>
      rw [createStep_empty p node i tl j hr] at h
      simp only [Except.ok.injEq, Prod.mk.injEq] at h
      rw [← h.1]
      refine ⟨rfl, by simp [idsAt, hr, Level.new, rangeIds], rfl, by simp [Level.new, isOkRange, hr],
        ?_, ?_, fun _ => rfl, fun _ => rfl⟩
      · intro hne
        exact absurd rfl hne
      · intro _ hne
        exact absurd rfl hne
    | invalidLevel j =>
      rw [createStep_invalid p node i tl j hr] at h
      simp at h

theorem createLevelsGo_cons_ok (p : Partitioner) (node i : Nat) (rest : List Nat)
    (tl : Nat × Nat) (l : Level) (tl' : Nat × Nat)
    (h : createStep p node i tl = Except.ok (l, tl')) :
    createLevelsGo p node (i :: rest) tl =
      Except.map (fun lvls => l :: lvls) (createLevelsGo p node rest tl') := by
  have h1 : createLevelsGo p node (i :: rest) tl =
      match createStep p node i tl with
      | Except.error e => Except.error e
      | Except.ok (level, tree_lhs') =>
        match createLevelsGo p node rest tree_lhs' with
        | Except.error e => Except.error e
        | Except.ok lvls => Except.ok (level :: lvls) := rfl
  rw [h1, h]
  show (match createLevelsGo p node rest tl' with
      | Except.error e => Except.error e
      | Except.ok lvls => Except.ok (l :: lvls)) =
    Except.map (fun lvls => l :: lvls) (createLevelsGo p node rest tl')
  cases createLevelsGo p node rest tl' <;> rfl

theorem createLevelsGo_cons_err (p : Partitioner) (node i : Nat) (rest : List Nat)
    (tl : Nat × Nat) (er : CreateError)
    (h : createStep p node i tl = Except.error er) :
    createLevelsGo p node (i :: rest) tl = Except.error er := by
  unfold createLevelsGo
  rw [h]

theorem createLevelsGo_trace (p : Partitioner) (node : Nat) :
    ∀ (k i : Nat) (lvls : List Level),
      createLevelsGo p node (List.range' i k) (tlBefore p node i) = Except.ok lvls →
      lvls.length = k ∧
      ∀ j, j < k → ∃ l tl', lvls[j]? = some l ∧
        createStep p node (i + j) (tlBefore p node (i + j)) = Except.ok (l, tl') := by
  intro k
  induction k with
  | zero =>
    intro i lvls h
    simp only [List.range', createLevelsGo, Except.ok.injEq] at h
    subst h
    exact ⟨rfl, fun j hj => absurd hj (Nat.not_lt_zero j)⟩
  | succ k ih =>
    intro i lvls h
    rw [show List.range' i (k + 1) = i :: List.range' (i + 1) k from rfl] at h
    cases hs : createStep p node i (tlBefore p node i) with
    | error e =>
      rw [createLevelsGo_cons_err p node i (List.range' (i + 1) k) (tlBefore p node i) e hs] at h
      simp at h
    | ok pr =>
      obtain ⟨lv, tl'⟩ := pr
      have htl' : tl' = tlBefore p node (i + 1) := by
        rw [createStep_tl p node i _ lv tl' hs,
          show tlBefore p node (i + 1) = tlAfter p node i from rfl, tlAfter_eq]
      subst htl'
      rw [createLevelsGo_cons_ok p node i (List.range' (i + 1) k) (tlBefore p node i) lv
        (tlBefore p node (i + 1)) hs] at h
      cases hr2 : createLevelsGo p node (List.range' (i + 1) k) (tlBefore p node (i + 1)) with
      | error e =>
        rw [hr2] at h
        simp [Except.map] at h
      | ok lvls' =>
        rw [hr2] at h
        simp only [Except.map, Except.ok.injEq] at h
        subst h
        obtain ⟨hlen, hidx⟩ := ih (i + 1) lvls' hr2
        refine ⟨by simp [hlen], ?_⟩
        intro j hj
        cases j with
        | zero => exact ⟨lv, tlBefore p node (i + 1), by simp, by simpa using hs⟩
        | succ j' =>
          obtain ⟨l, tl2, hget, hstep⟩ := hidx j' (by omega)
          refine ⟨l, tl2, by simpa using hget, ?_⟩
          rw [show i + (j' + 1) = i + 1 + j' by omega]
          exact hstep

theorem create_levels_trace (p : Partitioner) (node : Nat) (lvls : List Level)
    (h : create_levels p node = Except.ok lvls) :
    lvls.length = p.levels ∧
    ∀ j, j < p.levels → ∃ l tl', lvls[j]? = some l ∧
      createStep p node j (tlBefore p node j) = Except.ok (l, tl') := by
  unfold create_levels at h
  rw [List.range_eq_range'] at h
  have htr := createLevelsGo_trace p node p.levels 0 lvls h
  refine ⟨htr.1, ?_⟩
  intro j hj
  simpa using htr.2 j hj

theorem rangeIds_length (s e : Nat) : (rangeIds s e).length = e + 1 - s := by
  simp [rangeIds]

theorem rangePosition_some (a b x : Nat) (h1 : a ≤ x) (h2 : x < b) :
    rangePosition a b x = some (x - a) := by
  unfold rangePosition
  rw [if_pos ⟨h1, h2⟩]

theorem consecAtB_ok (p : Partitioner) (node i s e : Nat) (hi : i ≠ 0)
    (hr : p.range i = Except.ok (s, e)) :
    consecAtB p node i =
      (decide (s ≤ e) && decide ((tlBefore p node i).1 ≤ node) &&
        decide (node < (tlBefore p node i).2) &&
        (decide (e + 1 = (tlBefore p node i).1) || decide (s = (tlBefore p node i).2))) := by
  unfold consecAtB
  rw [hr]
  dsimp only
  rw [if_neg hi]

theorem consec_ok (p : Partitioner) (node i : Nat) (hc : ConsecutiveRanges p node)
    (hi : i ≠ 0) (hlt : i < p.levels) (s e : Nat) (hr : p.range i = Except.ok (s, e)) :
    s ≤ e ∧ (tlBefore p node i).1 ≤ node ∧ node < (tlBefore p node i).2 ∧
      (e + 1 = (tlBefore p node i).1 ∨ s = (tlBefore p node i).2) := by
  have h := hc i hlt
  rw [consecAtB_ok p node i s e hi hr] at h
  simp only [Bool.and_eq_true, Bool.or_eq_true, decide_eq_true_eq] at h
  exact ⟨h.1.1.1, h.1.1.2, h.1.2, h.2⟩

theorem consec_not_invalid (p : Partitioner) (node i : Nat) (hc : ConsecutiveRanges p node)
    (hlt : i < p.levels) (j : Nat) :
    p.range i ≠ Except.error (PartitioningError.invalidLevel j) := by
  intro hr
  have h := hc i hlt
  unfold consecAtB at h
  rw [hr] at h
  dsimp only at h
  exact Bool.false_ne_true h

theorem createLevelsGo_master (p : Partitioner) (node : Nat) (hc : ConsecutiveRanges p node) :
    ∀ (k i : Nat), 1 ≤ i → i + k ≤ p.levels →
      ∃ lvls, createLevelsGo p node (List.range' i k) (tlBefore p node i) = Except.ok lvls := by
  intro k
  induction k with
  | zero =>
    intro i _ _
    exact ⟨[], rfl⟩
  | succ k ih =>
    intro i hi hik
    have hilt : i < p.levels := by omega
    have hstep : ∃ l tl', createStep p node i (tlBefore p node i) = Except.ok (l, tl') := by
      cases hr : p.range i with
      | ok pr =>
        obtain ⟨s, e⟩ := pr
        obtain ⟨hse, ha, hb, hadj⟩ := consec_ok p node i hc (by omega) hilt s e hr
        have hp : rangePosition (tlBefore p node i).1 (tlBefore p node i).2 node
            = some (node - (tlBefore p node i).1) := rangePosition_some _ _ _ ha hb
        have hlen : (rangeIds s e).length ≠ 0 := by
          rw [rangeIds_length]
          omega
        rw [createStep_pos_ok p node i (tlBefore p node i) s e
          (node - (tlBefore p node i).1) (by omega) hr hp hlen]
        by_cases h0 : e + 1 = (tlBefore p node i).1
        · rw [if_pos h0]
          exact ⟨_, _, rfl⟩
        · rcases hadj with h1 | h1
          · exact absurd h1 h0
          · rw [if_neg h0, if_pos h1]
            exact ⟨_, _, rfl⟩
      | error er =>
        cases er with
        | emptyLevel j => exact ⟨_, _, createStep_empty p node i _ j hr⟩
        | invalidLevel j => exact absurd hr (consec_not_invalid p node i hc hilt j)
    obtain ⟨l, tl', hstep⟩ := hstep
    have htl' : tl' = tlBefore p node (i + 1) := by
      rw [createStep_tl p node i _ l tl' hstep,
        show tlBefore p node (i + 1) = tlAfter p node i from rfl, tlAfter_eq]
    obtain ⟨lvls', hok'⟩ := ih (i + 1) (by omega) (by omega)
    refine ⟨l :: lvls', ?_⟩
    rw [show List.range' i (k + 1) = i :: List.range' (i + 1) k from rfl]
    rw [createLevelsGo_cons_ok p node i (List.range' (i + 1) k) (tlBefore p node i) l tl' hstep,
      htl', hok']
    rfl

theorem create_levels_ok_of_consec (p : Partitioner) (node : Nat)
    (hc : ConsecutiveRanges p node) :
    ∃ lvls, create_levels p node = Except.ok lvls := by
  unfold create_levels
  rw [List.range_eq_range']
  cases hL : p.levels with
  | zero => exact ⟨[], rfl⟩
  | succ L =>
    have hstep : ∃ l tl', createStep p node 0 (0, 0) = Except.ok (l, tl') := by
      cases hr : p.range 0 with
      | ok pr =>
        obtain ⟨s, e⟩ := pr
        exact ⟨_, _, createStep_zero_ok p node (0, 0) s e hr⟩
      | error er =>
        cases er with
        | emptyLevel j => exact ⟨_, _, createStep_empty p node 0 (0, 0) j hr⟩
        | invalidLevel j => exact absurd hr (consec_not_invalid p node 0 hc (by omega) j)
    obtain ⟨l0, tl1, hstep⟩ := hstep
    have htl1 : tl1 = tlBefore p node 1 :=
      (createStep_tl p node 0 (0, 0) l0 tl1 hstep).trans rfl
    obtain ⟨lvls', hok'⟩ := createLevelsGo_master p node hc L 1 (by omega) (by omega)
    refine ⟨l0 :: lvls', ?_⟩
    rw [show List.range' 0 (L + 1) = 0 :: List.range' 1 L from rfl]
    rw [createLevelsGo_cons_ok p node 0 (List.range' 1 L) (0, 0) l0 tl1 hstep, htl1, hok']
    rfl

theorem binom_step (n node : Nat) (hn : node < n) (j : Nat)
    (htl : tlBefore (binomialPartitioner n node) node (j + 1) =
      (2 ^ j * (node / 2 ^ j), min (2 ^ j * (node / 2 ^ j) + 2 ^ j) n)) :
    consecAtB (binomialPartitioner n node) node (j + 1) = true ∧
    tlBefore (binomialPartitioner n node) node (j + 2) =
      (2 ^ (j + 1) * (node / 2 ^ (j + 1)),
        min (2 ^ (j + 1) * (node / 2 ^ (j + 1)) + 2 ^ (j + 1)) n) := by
  have hs : 0 < 2 ^ j := pow_pos (by norm_num) j
  have hfact1 : 2 ^ j * (node / 2 ^ j) ≤ node := by
    rw [mul_comm]
    exact Nat.div_mul_le_self node (2 ^ j)
  have hfact2 : node < 2 ^ j * (node / 2 ^ j) + 2 ^ j := by
    have h1 := Nat.div_add_mod node (2 ^ j)
    have h2 := Nat.mod_lt node hs
    omega
  have hnext : node / 2 ^ (j + 1) = node / 2 ^ j / 2 := by
    rw [pow_succ]
    exact (Nat.div_div_eq_div_mul node (2 ^ j) 2).symm
  have hrw3 : 2 ^ (j + 1) = 2 ^ j + 2 ^ j := by
    rw [pow_succ]
    ring
  have htlB : tlBefore (binomialPartitioner n node) node (j + 2) =
      tlStep node (j + 1) (binomialRange n node (j + 1))
        (tlBefore (binomialPartitioner n node) node (j + 1)) := tlAfter_eq _ _ _
  rw [htlB, htl]
  rcases Nat.mod_two_eq_zero_or_one (node / 2 ^ j) with hpar | hpar
  · -- the node sits on an even-indexed block: the sibling is on the right
    have hrange : binomialRange n node (j + 1) =
        (if n ≤ (node / 2 ^ j + 1) * 2 ^ j then
          Except.error (PartitioningError.emptyLevel (j + 1))
        else Except.ok ((node / 2 ^ j + 1) * 2 ^ j,
          min ((node / 2 ^ j + 1) * 2 ^ j + 2 ^ j) n - 1)) := by
      unfold binomialRange
      rw [if_neg (show ¬(j + 1 = 0) by omega)]
      simp only [Nat.add_sub_cancel]
      rw [if_pos hpar]
    have hrw2 : (node / 2 ^ j + 1) * 2 ^ j = 2 ^ j * (node / 2 ^ j) + 2 ^ j := by ring
    have hrw1 : 2 ^ (j + 1) * (node / 2 ^ (j + 1)) = 2 ^ j * (node / 2 ^ j) := by
      rw [hnext, pow_succ]
      have h2 : 2 * (node / 2 ^ j / 2) = node / 2 ^ j := by omega
      calc 2 ^ j * 2 * (node / 2 ^ j / 2) = 2 ^ j * (2 * (node / 2 ^ j / 2)) := by ring
        _ = 2 ^ j * (node / 2 ^ j) := by rw [h2]
    obtain ⟨R1, hR1⟩ : ∃ R1, 2 ^ (j + 1) * (node / 2 ^ (j + 1)) = R1 := ⟨_, rfl⟩
    obtain ⟨R2, hR2⟩ : ∃ R2, 2 ^ (j + 1) = R2 := ⟨_, rfl⟩
    obtain ⟨q, hq⟩ : ∃ q, node / 2 ^ j = q := ⟨_, rfl⟩
    rw [hR1] at hrw1 ⊢
    rw [hR2] at hrw3 ⊢
    rw [hq] at hpar hfact1 hfact2 hrange hrw2 hrw1 ⊢
    obtain ⟨E, hE⟩ : ∃ E, 2 ^ j = E := ⟨_, rfl⟩
    rw [hE] at hs hfact1 hfact2 hrange hrw2 hrw1 hrw3 ⊢
    constructor
    · by_cases hse : n ≤ (q + 1) * E
      · have hr : (binomialPartitioner n node).range (j + 1) =
            Except.error (PartitioningError.emptyLevel (j + 1)) := by
          rw [show (binomialPartitioner n node).range (j + 1) = binomialRange n node (j + 1)
            from rfl, hrange, if_pos hse]
        unfold consecAtB
        rw [hr]
      · have hr : (binomialPartitioner n node).range (j + 1) =
            Except.ok ((q + 1) * E, min ((q + 1) * E + E) n - 1) := by
          rw [show (binomialPartitioner n node).range (j + 1) = binomialRange n node (j + 1)
            from rfl, hrange, if_neg hse]
        rw [consecAtB_ok (binomialPartitioner n node) node (j + 1)
          ((q + 1) * E) (min ((q + 1) * E + E) n - 1) (show ¬(j + 1 = 0) by omega) hr, htl,
          hq, hE]
        simp only [Bool.and_eq_true, Bool.or_eq_true, decide_eq_true_eq]
        omega
    · rw [hrange]
      by_cases hse : n ≤ (q + 1) * E
      · rw [if_pos hse]
        simp only [tlStep]
        simp only [Prod.mk.injEq]
        constructor
        · omega
        · omega
      · rw [if_neg hse]
        simp only [tlStep]
        rw [if_neg (show ¬(j + 1 = 0) by omega)]
        split_ifs with h1 h2
        · exfalso
          omega
        · simp only [Prod.mk.injEq]
          constructor
          · omega
          · omega
        · exfalso
          omega
  · -- the node sits on an odd-indexed block: the sibling is on the left
    obtain ⟨m, hm⟩ : ∃ m, node / 2 ^ j = m + 1 :=
      ⟨node / 2 ^ j - 1, by generalize node / 2 ^ j = X at hpar ⊢; omega⟩
    rw [hm] at hpar
    have hrange : binomialRange n node (j + 1) =
        (if n ≤ (node / 2 ^ j - 1) * 2 ^ j then
          Except.error (PartitioningError.emptyLevel (j + 1))
        else Except.ok ((node / 2 ^ j - 1) * 2 ^ j,
          min ((node / 2 ^ j - 1) * 2 ^ j + 2 ^ j) n - 1)) := by
      unfold binomialRange
      rw [if_neg (show ¬(j + 1 = 0) by omega)]
      simp only [Nat.add_sub_cancel]
      rw [if_neg (show ¬(node / 2 ^ j % 2 = 0) by rw [hm]; omega)]
    have hsub : (node / 2 ^ j - 1) * 2 ^ j = 2 ^ j * m := by
      rw [hm]
      simp only [Nat.add_sub_cancel]
      ring
    have hbridge1 : 2 ^ j * (node / 2 ^ j) = 2 ^ j * m + 2 ^ j := by
      rw [hm]
      ring
    have hrw1 : 2 ^ (j + 1) * (node / 2 ^ (j + 1)) = 2 ^ j * m := by
      have hm2 : m % 2 = 0 := by omega
      rw [hnext, hm]
      have hdiv : (m + 1) / 2 = m / 2 := by omega
      rw [hdiv, pow_succ]
      have h2 : 2 * (m / 2) = m := by omega
      calc 2 ^ j * 2 * (m / 2) = 2 ^ j * (2 * (m / 2)) := by ring
        _ = 2 ^ j * m := by rw [h2]
    rw [hsub] at hrange
    obtain ⟨R1, hR1⟩ : ∃ R1, 2 ^ (j + 1) * (node / 2 ^ (j + 1)) = R1 := ⟨_, rfl⟩
    obtain ⟨R2, hR2⟩ : ∃ R2, 2 ^ (j + 1) = R2 := ⟨_, rfl⟩
    rw [hR1] at hrw1 ⊢
    rw [hR2] at hrw3 ⊢
    rw [hbridge1] at hfact1 hfact2 htl ⊢
    obtain ⟨A, hA⟩ : ∃ A, 2 ^ j * m = A := ⟨_, rfl⟩
    rw [hA] at hrange hrw1 hfact1 hfact2 ⊢
    obtain ⟨E, hE⟩ : ∃ E, 2 ^ j = E := ⟨_, rfl⟩
    rw [hE] at hs hfact1 hfact2 hrange hrw3 ⊢
    have hslt : ¬ (n ≤ A) := by omega
    constructor
    · have hr : (binomialPartitioner n node).range (j + 1) =
          Except.ok (A, min (A + E) n - 1) := by
        rw [show (binomialPartitioner n node).range (j + 1) = binomialRange n node (j + 1)
          from rfl, hrange, if_neg hslt]
      rw [consecAtB_ok (binomialPartitioner n node) node (j + 1)
        A (min (A + E) n - 1) (show ¬(j + 1 = 0) by omega) hr, htl]
      simp only [Bool.and_eq_true, Bool.or_eq_true, decide_eq_true_eq]
      omega
    · rw [hrange, if_neg hslt]
      simp only [tlStep]
      rw [if_neg (show ¬(j + 1 = 0) by omega)]
      split_ifs with h1 h2
      · simp only [Prod.mk.injEq]
        constructor
        · omega
        · omega
      · exfalso
        omega
      · exfalso
        omega

theorem binom_tlBefore (n node : Nat) (hn : node < n) :
    ∀ j : Nat, tlBefore (binomialPartitioner n node) node (j + 1) =
      (2 ^ j * (node / 2 ^ j), min (2 ^ j * (node / 2 ^ j) + 2 ^ j) n) := by
  intro j
  induction j with
  | zero =>
    have h1 : tlBefore (binomialPartitioner n node) node 1 = (node, node + 1) := rfl
    rw [h1]
    simp only [pow_zero, Nat.div_one, one_mul]
    have hmin : min (node + 1) n = node + 1 := by omega
    rw [hmin]
  | succ j ih => exact (binom_step n node hn j ih).2

theorem binom_consecutive (n node : Nat) (hn : node < n) :
    ConsecutiveRanges (binomialPartitioner n node) node := by
  intro i _
  cases i with
  | zero =>
    unfold consecAtB
    rw [show (binomialPartitioner n node).range 0 = Except.ok (node, node) from rfl]
    rfl
  | succ j => exact (binom_step n node hn j (binom_tlBefore n node hn j)).1

theorem applyOp_complete_eq (l : Level) (op : LevelOp) :
    (applyOp l op).state.complete = l.state.complete := by
  cases op with
  | startOp => rfl
  | selectOp c =>
    simp only [applyOp]
    cases hs : Level.select_next_peers l c with
    | none => rfl
    | some pr =>
      obtain ⟨sel, l'⟩ := pr
      exact (select_next_peers_preserves l c sel l' hs).2.2.2
  | isStartedOp => rfl
  | isCompleteOp => rfl
  | numPeersOp => rfl
  | isEmptyOp => rfl

theorem applyOp_started_mono (l : Level) (op : LevelOp) (h : l.state.started = true) :
    (applyOp l op).state.started = true := by
  cases op with
  | startOp => rfl
  | selectOp c =>
    simp only [applyOp]
    cases hs : Level.select_next_peers l c with
    | none => exact h
    | some pr =>
      obtain ⟨sel, l'⟩ := pr
      rw [(select_next_peers_preserves l c sel l' hs).2.2.1]
      exact h
  | isStartedOp => exact h
  | isCompleteOp => exact h
  | numPeersOp => exact h
  | isEmptyOp => exact h

theorem applyOp_inv (l : Level) (op : LevelOp) (hinv : levelInv l) :
    levelInv (applyOp l op) := by
  cases op with
  | startOp =>
    intro hne
    exact hinv hne
  | selectOp c =>
    simp only [applyOp]
    cases hs : Level.select_next_peers l c with
    | none => exact hinv
    | some pr =>
      obtain ⟨sel, l'⟩ := pr
      exact select_next_peers_inv l c sel l' hinv hs
  | isStartedOp => exact hinv
  | isCompleteOp => exact hinv
  | numPeersOp => exact hinv
  | isEmptyOp => exact hinv

/-! The claims. -/

/-- C1: on a level with `id ≥ 1`, a non-empty peer list and an in-range
cursor, `select_next_peers(count)` returns exactly the next
`min(count, |peer_ids|)` peers taken round-robin from `peer_ids`
starting at `next_peer_index`, and afterwards `next_peer_index` equals
`(old next_peer_index + min(count, |peer_ids|)) mod |peer_ids|`. -/
theorem select_next_peers_round_robin (l : Level) (count : Nat)
    (hid : l.id ≠ 0) (hne : l.peer_ids ≠ [])
    (hidx : l.state.next_peer_index < l.peer_ids.length) :
    Level.select_next_peers l count =
      some (roundRobinSpec l.peer_ids l.state.next_peer_index (min count l.peer_ids.length),
        { l with state := { l.state with next_peer_index :=
          (l.state.next_peer_index + min count l.peer_ids.length) % l.peer_ids.length } }) := by
  unfold Level.select_next_peers
  have hcond : ¬ ((l.id == 0 || l.is_empty) = true) := by
    simp [Level.is_empty, hid, hne]
  rw [if_neg hcond, selectLoop_spec l.peer_ids (min count l.peer_ids.length)
    l.state.next_peer_index hidx]
  rfl

/-- Witness for C1 at a concrete level. -/
theorem select_next_peers_round_robin_witness :
    Level.select_next_peers (Level.mk 1 [10, 20, 30] (LevelState.mk true false 1)) 2 =
      some (roundRobinSpec [10, 20, 30] 1 (min 2 ([10, 20, 30] : List Nat).length),
        Level.mk 1 [10, 20, 30]
          (LevelState.mk true false ((1 + min 2 ([10, 20, 30] : List Nat).length) % 3))) :=
  select_next_peers_round_robin (Level.mk 1 [10, 20, 30] (LevelState.mk true false 1)) 2
    (by decide) (by decide) (by decide)

/-- C2: when the loop of `create_levels` reaches level `i ≥ 1` with an
accumulated own-side range `tl`, an `Ok` range that is neither
immediately left-adjacent nor immediately right-adjacent to `tl` makes
the construction fail with the `ranges must be consecutive` panic;
an adjacent range extends the own side to the union of the two ranges
and construction proceeds with the remaining levels. -/
theorem nonconsecutive_ranges_panic (p : Partitioner) (node i : Nat) (rest : List Nat)
    (tl : Nat × Nat) (s e idx : Nat)
    (hi : i ≠ 0) (hr : p.range i = Except.ok (s, e))
    (hpos : rangePosition tl.1 tl.2 node = some idx)
    (hlen : rangeIds s e ≠ []) :
    ((e + 1 ≠ tl.1 ∧ s ≠ tl.2) →
      createLevelsGo p node (i :: rest) tl = Except.error CreateError.rangesNotConsecutive) ∧
    (e + 1 = tl.1 →
      ∃ lvl, createLevelsGo p node (i :: rest) tl =
        Except.map (fun lvls => lvl :: lvls) (createLevelsGo p node rest (s, tl.2))) ∧
    ((e + 1 ≠ tl.1 ∧ s = tl.2) →
      ∃ lvl, createLevelsGo p node (i :: rest) tl =
        Except.map (fun lvls => lvl :: lvls) (createLevelsGo p node rest (tl.1, e + 1))) := by
  have hlen0 : (rangeIds s e).length ≠ 0 := by
    intro h
    exact hlen (List.length_eq_zero.mp h)
  have hbr := createStep_pos_ok p node i tl s e idx hi hr hpos hlen0
  refine ⟨?_, ?_, ?_⟩
  · intro h
    have herr : createStep p node i tl = Except.error CreateError.rangesNotConsecutive := by
      rw [hbr, if_neg h.1, if_neg h.2]
    exact createLevelsGo_cons_err p node i rest tl _ herr
  · intro h1
    refine ⟨stepLevel i s e idx, ?_⟩
    have hok : createStep p node i tl = Except.ok (stepLevel i s e idx, (s, tl.2)) := by
      rw [hbr, if_pos h1]
    exact createLevelsGo_cons_ok p node i rest tl _ _ hok
  · intro h
    refine ⟨stepLevel i s e idx, ?_⟩
    have hok : createStep p node i tl = Except.ok (stepLevel i s e idx, (tl.1, e + 1)) := by
      rw [hbr, if_neg h.1, if_pos h.2]
    exact createLevelsGo_cons_ok p node i rest tl _ _ hok

/-- Witness for C2: a partitioner whose level-1 range `9..=9` is not
adjacent to the own-side range `5..6` panics. -/
theorem nonconsecutive_ranges_panic_witness :
    createLevelsGo
      { levels := 2,
        range := fun i => if i = 0 then Except.ok (5, 5) else Except.ok (9, 9) }
      5 [1] (5, 6) = Except.error CreateError.rangesNotConsecutive :=
  (nonconsecutive_ranges_panic
    { levels := 2, range := fun i => if i = 0 then Except.ok (5, 5) else Except.ok (9, 9) }
    5 1 [] (5, 6) 9 9 0 (by decide) (by decide) (by decide) (by decide)).1
    (by decide)

/-- C3: for every committee size and node id, `create_levels` over the
(spec-modelled) binomial partitioner succeeds; the level with id 0 is
started and contains exactly `node_id`, and every level with id ≥ 1
starts not-started and not-complete. -/
theorem create_levels_initial_state (n node : Nat) (hn : node < n) :
    ∃ lvls, create_levels (binomialPartitioner n node) node = Except.ok lvls ∧
      lvls.length = (binomialPartitioner n node).levels ∧
      (∃ l0, lvls[0]? = some l0 ∧ l0.id = 0 ∧ l0.state.started = true ∧
        l0.peer_ids = [node]) ∧
      (∀ j l, lvls[j]? = some l → 1 ≤ j →
        l.state.started = false ∧ l.state.complete = false) := by
  obtain ⟨lvls, hok⟩ := create_levels_ok_of_consec _ node (binom_consecutive n node hn)
  obtain ⟨hlen, hidx⟩ := create_levels_trace _ node lvls hok
  refine ⟨lvls, hok, hlen, ?_, ?_⟩
  · have h0 : 0 < (binomialPartitioner n node).levels := by
      show 0 < binomialLevels n
      unfold binomialLevels
      omega
    obtain ⟨l0, tl', hget, hstep⟩ := hidx 0 h0
    obtain ⟨hid0, hids, -, hstart, -⟩ := createStep_ok_cases _ _ _ _ _ _ hstep
    refine ⟨l0, hget, hid0, hstart.mpr ⟨rfl, rfl⟩, ?_⟩
    rw [hids]
    show idsAt (binomialPartitioner n node) 0 = [node]
    unfold idsAt
    rw [show (binomialPartitioner n node).range 0 = Except.ok (node, node) from rfl]
    unfold rangeIds
    simp
  · intro j l hget hj
    have hjlt : j < (binomialPartitioner n node).levels := by
      obtain ⟨hlt, -⟩ := List.getElem?_eq_some.mp hget
      omega
    obtain ⟨l', tl', hget', hstep⟩ := hidx j hjlt
    have hll : l' = l := by
      rw [hget'] at hget
      exact (Option.some.injEq _ _).mp hget
    obtain ⟨-, -, hcomp, hstart, -⟩ := createStep_ok_cases _ _ _ _ _ _ hstep
    rw [hll] at hcomp hstart
    refine ⟨?_, hcomp⟩
    cases hb : l.state.started
    · rfl
    · exact absurd (hstart.mp hb).1 (by omega)

/-- Witness for C3 at committee size 7, node id 0. -/
theorem create_levels_initial_state_witness :
    ∃ lvls, create_levels (binomialPartitioner 7 0) 0 = Except.ok lvls ∧
      lvls.length = (binomialPartitioner 7 0).levels ∧
      (∃ l0, lvls[0]? = some l0 ∧ l0.id = 0 ∧ l0.state.started = true ∧
        l0.peer_ids = [0]) ∧
      (∀ j l, lvls[j]? = some l → 1 ≤ j →
        l.state.started = false ∧ l.state.complete = false) :=
  create_levels_initial_state 7 0 (by decide)

/-- C4: `start()` records the started flag and returns `true` exactly
when it performed the `false` to `true` transition; everything else is
unchanged, and a second call returns `false` and changes nothing. -/
theorem start_false_to_true (l : Level) :
    (Level.start l).2.state.started = true ∧
    ((Level.start l).1 = true ↔ l.state.started = false) ∧
    (Level.start l).2.id = l.id ∧
    (Level.start l).2.peer_ids = l.peer_ids ∧
    (Level.start l).2.state.complete = l.state.complete ∧
    (Level.start l).2.state.next_peer_index = l.state.next_peer_index ∧
    Level.start (Level.start l).2 = (false, (Level.start l).2) := by
  obtain ⟨id, ids, st⟩ := l
  obtain ⟨b, c, x⟩ := st
  simp [Level.start]

/-- C5: in a successfully constructed level vector, the initial cursor
of every non-empty level `i ≥ 1` is the position of `node_id` inside
the own-side range accumulated through level `i - 1`, taken modulo the
number of peers on the level. -/
theorem next_peer_index_init (p : Partitioner) (node : Nat) (lvls : List Level)
    (i : Nat) (l : Level)
    (hok : create_levels p node = Except.ok lvls)
    (hl : lvls[i]? = some l) (hi : 1 ≤ i) (hne : l.peer_ids ≠ []) :
    ∃ pos, rangePosition (tlBefore p node i).1 (tlBefore p node i).2 node = some pos ∧
      l.state.next_peer_index = pos % l.peer_ids.length := by
  obtain ⟨hlen, hidx⟩ := create_levels_trace p node lvls hok
  have hjlt : i < p.levels := by
    obtain ⟨hlt, -⟩ := List.getElem?_eq_some.mp hl
    omega
  obtain ⟨l', tl', hget', hstep⟩ := hidx i hjlt
  have hll : l' = l := by
    rw [hget'] at hl
    exact (Option.some.injEq _ _).mp hl
  subst hll
  obtain ⟨-, -, -, -, -, hnext, -, -⟩ := createStep_ok_cases _ _ _ _ _ _ hstep
  exact hnext (by omega) hne

/-- Witness for C5 at the binomial partitioner with committee size 7,
node id 0, level 3. -/
theorem next_peer_index_init_witness :
    ∃ pos, rangePosition (tlBefore (binomialPartitioner 7 0) 0 3).1
        (tlBefore (binomialPartitioner 7 0) 0 3).2 0 = some pos ∧
      (Level.mk 3 [4, 5, 6] (LevelState.mk false false 0)).state.next_peer_index =
        pos % (Level.mk 3 [4, 5, 6] (LevelState.mk false false 0)).peer_ids.length :=
  next_peer_index_init (binomialPartitioner 7 0) 0
    [Level.mk 0 [0] (LevelState.mk true false 0),
     Level.mk 1 [1] (LevelState.mk false false 0),
     Level.mk 2 [2, 3] (LevelState.mk false false 0),
     Level.mk 3 [4, 5, 6] (LevelState.mk false false 0)]
    3 (Level.mk 3 [4, 5, 6] (LevelState.mk false false 0))
    (by rfl) (by rfl) (by decide) (by decide)

/-- C6: `select_next_peers` on level 0 or on an empty level returns the
empty sequence and leaves the level untouched (in particular no cursor
advance and no modulo-by-zero). -/
theorem select_next_peers_level_zero_or_empty (l : Level) (count : Nat)
    (h : l.id = 0 ∨ l.peer_ids = []) :
    Level.select_next_peers l count = some ([], l) := by
  unfold Level.select_next_peers
  rcases h with h | h
  · rw [if_pos (by simp [h])]
  · rw [if_pos (by simp [Level.is_empty, h])]

/-- Witness for C6 at a concrete level-0 instance. -/
theorem select_next_peers_level_zero_or_empty_witness :
    Level.select_next_peers (Level.mk 0 [1, 2] (LevelState.mk true false 0)) 3 =
      some ([], Level.mk 0 [1, 2] (LevelState.mk true false 0)) :=
  select_next_peers_level_zero_or_empty
    (Level.mk 0 [1, 2] (LevelState.mk true false 0)) 3 (Or.inl rfl)

/-- C7: an `EmptyLevel` report for level `i` is recovered by pushing a
`Level` with id `i` and no peers, leaving the own-side range unchanged
and continuing with the remaining levels. -/
theorem empty_level_recovery (p : Partitioner) (node i j : Nat) (tl : Nat × Nat)
    (rest : List Nat)
    (hr : p.range i = Except.error (PartitioningError.emptyLevel j)) :
    createStep p node i tl = Except.ok (Level.new i [], tl) ∧
    (Level.new i []).id = i ∧ (Level.new i []).peer_ids = [] ∧
    createLevelsGo p node (i :: rest) tl =
      Except.map (fun lvls => Level.new i [] :: lvls) (createLevelsGo p node rest tl) := by
  have hstep := createStep_empty p node i tl j hr
  exact ⟨hstep, rfl, rfl, createLevelsGo_cons_ok p node i rest tl _ tl hstep⟩

/-- Witness for C7 at a concrete partitioner that reports `EmptyLevel`. -/
theorem empty_level_recovery_witness :
    createStep { levels := 2, range := fun i => Except.error (PartitioningError.emptyLevel i) }
      4 1 (4, 5) = Except.ok (Level.new 1 [], (4, 5)) ∧
    (Level.new 1 []).id = 1 ∧ (Level.new 1 []).peer_ids = [] ∧
    createLevelsGo { levels := 2, range := fun i => Except.error (PartitioningError.emptyLevel i) }
      4 [1] (4, 5) =
      Except.map (fun lvls => Level.new 1 [] :: lvls)
        (createLevelsGo
          { levels := 2, range := fun i => Except.error (PartitioningError.emptyLevel i) }
          4 [] (4, 5)) :=
  empty_level_recovery
    { levels := 2, range := fun i => Except.error (PartitioningError.emptyLevel i) }
    4 1 1 (4, 5) [] (by decide)

/-- C8: under any sequence of `Level` operations, `started` never goes
back from `true` to `false` and `complete` never goes back from `true`
to `false`. -/
theorem level_flags_monotone (l : Level) (ops : List LevelOp) :
    (l.state.started = true → (runOps l ops).state.started = true) ∧
    (l.state.complete = true → (runOps l ops).state.complete = true) := by
  induction ops generalizing l with
  | nil => exact ⟨fun h => h, fun h => h⟩
  | cons op rest ih =>
    have hrun : runOps l (op :: rest) = runOps (applyOp l op) rest := rfl
    rw [hrun]
    constructor
    · intro h
      exact (ih (applyOp l op)).1 (applyOp_started_mono l op h)
    · intro h
      refine (ih (applyOp l op)).2 ?_
      rw [applyOp_complete_eq]
      exact h

/-- Witness for C8 on a concrete operation sequence. -/
theorem level_flags_monotone_witness :
    ((runOps (Level.mk 1 [5, 6] (LevelState.mk true true 1))
      [LevelOp.startOp, LevelOp.selectOp 3, LevelOp.isEmptyOp]).state.started = true) ∧
    ((runOps (Level.mk 1 [5, 6] (LevelState.mk true true 1))
      [LevelOp.startOp, LevelOp.selectOp 3, LevelOp.isEmptyOp]).state.complete = true) :=
  ⟨(level_flags_monotone (Level.mk 1 [5, 6] (LevelState.mk true true 1))
      [LevelOp.startOp, LevelOp.selectOp 3, LevelOp.isEmptyOp]).1 rfl,
   (level_flags_monotone (Level.mk 1 [5, 6] (LevelState.mk true true 1))
      [LevelOp.startOp, LevelOp.selectOp 3, LevelOp.isEmptyOp]).2 rfl⟩

/-- C9: on non-empty levels the cursor stays strictly below the number
of peers: the invariant holds for `new` and for every level built by
`create_levels`, it is preserved by every operation, and under it
`select_next_peers` cannot hit the out-of-bounds indexing panic. -/
theorem cursor_invariant_no_panic :
    (∀ (id : Nat) (ids : List Nat), levelInv (Level.new id ids)) ∧
    (∀ (p : Partitioner) (node : Nat) (lvls : List Level),
      create_levels p node = Except.ok lvls → ∀ l ∈ lvls, levelInv l) ∧
    (∀ (l : Level) (op : LevelOp), levelInv l → levelInv (applyOp l op)) ∧
    (∀ (l : Level) (count : Nat), levelInv l →
      (Level.select_next_peers l count).isSome = true) := by
  refine ⟨?_, ?_, applyOp_inv, select_next_peers_total⟩
  · intro id ids hne
    exact List.length_pos.mpr hne
  · intro p node lvls hok l hmem
    obtain ⟨hlen, hidx⟩ := create_levels_trace p node lvls hok
    obtain ⟨jj, hj⟩ := List.mem_iff_getElem?.mp hmem
    have hjlt : jj < p.levels := by
      obtain ⟨hlt, -⟩ := List.getElem?_eq_some.mp hj
      omega
    obtain ⟨l', tl', hget', hstep⟩ := hidx jj hjlt
    have hll : l' = l := by
      rw [hget'] at hj
      exact (Option.some.injEq _ _).mp hj
    subst hll
    exact (createStep_ok_cases _ _ _ _ _ _ hstep).2.2.2.2.1

/-- Witness for C9: a level with the invariant admits a panic-free
selection. -/
theorem cursor_invariant_no_panic_witness :
    (Level.select_next_peers (Level.mk 2 [7, 8, 9] (LevelState.mk false false 2)) 5).isSome
      = true :=
  cursor_invariant_no_panic.2.2.2 (Level.mk 2 [7, 8, 9] (LevelState.mk false false 2)) 5
    (by decide)

/-- C10: for every partitioner with consecutive ranges, `create_levels`
returns exactly `levels()` levels; the element at position `j` has id
`j` and its peers are the elements of `range(j)` in strictly increasing
order (empty on an `EmptyLevel` report). -/
theorem create_levels_structure (p : Partitioner) (node : Nat)
    (hc : ConsecutiveRanges p node) :
    ∃ lvls, create_levels p node = Except.ok lvls ∧ lvls.length = p.levels ∧
      ∀ j, j < p.levels → ∃ l, lvls[j]? = some l ∧ l.id = j ∧
        l.peer_ids = idsAt p j ∧ l.peer_ids.Pairwise (fun a b => a < b) := by
  obtain ⟨lvls, hok⟩ := create_levels_ok_of_consec p node hc
  obtain ⟨hlen, hidx⟩ := create_levels_trace p node lvls hok
  refine ⟨lvls, hok, hlen, ?_⟩
  intro j hj
  obtain ⟨l, tl', hget, hstep⟩ := hidx j hj
  obtain ⟨hid, hids, -⟩ := createStep_ok_cases _ _ _ _ _ _ hstep
  refine ⟨l, hget, hid, hids, ?_⟩
  rw [hids]
  unfold idsAt
  cases p.range j with
  | ok pr =>
    obtain ⟨s, e⟩ := pr
    unfold rangeIds
    exact List.pairwise_lt_range' s (e + 1 - s)
  | error er => exact List.Pairwise.nil

/-- Witness for C10 at the binomial partitioner with committee size 7,
node id 0. -/
theorem create_levels_structure_witness :
    ∃ lvls, create_levels (binomialPartitioner 7 0) 0 = Except.ok lvls ∧
      lvls.length = (binomialPartitioner 7 0).levels ∧
      ∀ j, j < (binomialPartitioner 7 0).levels → ∃ l, lvls[j]? = some l ∧ l.id = j ∧
        l.peer_ids = idsAt (binomialPartitioner 7 0) j ∧
        l.peer_ids.Pairwise (fun a b => a < b) :=
  create_levels_structure (binomialPartitioner 7 0) 0 (by decide)

end Handel
